import Mathlib

/-!
Verification of the Effect Timing & Transform Engine of the Explaino frontend.

The embedded code is `src/utils/effectProcessor.js` (coordinate normalization,
auto-scale heuristic, eased progress, overlap resolution, transform synthesis)
together with the instruction generator / purity validator used by
`VideoEffectPreview.jsx`. JavaScript numbers are modelled as exact rationals;
the one place where IEEE special values matter (division by a zero duration in
`computeEffectProgress`) is written out explicitly and documented at the
definition.
-/

namespace Explaino

/-- A bounding box as recorded: `{x, y, width, height}` in pixels, top-left origin. -/
structure Bounds where
  x : ℚ
  y : ℚ
  width : ℚ
  height : ℚ
deriving DecidableEq, Repr

/-- The record returned by `normalizeCoordinates`: the spread of the input bounds
plus center, unit-interval anchors, auto-scale, start/end scales and the debug
ratios, exactly the fields built in `effectProcessor.js`. -/
structure NormalizedBounds where
  x : ℚ
  y : ℚ
  width : ℚ
  height : ℚ
  centerX : ℚ
  centerY : ℚ
  anchorX : ℚ
  anchorY : ℚ
  autoScale : ℚ
  startScale : ℚ
  endScale : ℚ
  areaRatio : ℚ
  widthRatio : ℚ
  heightRatio : ℚ
  dominantRatio : ℚ
  effectiveRatio : ℚ
deriving DecidableEq, Repr

/-- The unclamped auto-scale tiers computed inline in `normalizeCoordinates`
(`effectProcessor.js` lines 52-65): four piecewise-linear tiers keyed on the
effective ratio. Decimal literals of the source are written as the equal
rationals (0.01 = 1/100, 1.5 = 3/2, 0.09 = 9/100, ...). -/
def autoScaleRaw (effectiveRatio : ℚ) : ℚ :=
  if effectiveRatio < 1/100 then
    3/2 + (1/100 - effectiveRatio) / (1/100) * (1/2)
  else if effectiveRatio < 1/10 then
    6/5 + (1/10 - effectiveRatio) / (9/100) * (3/10)
  else if effectiveRatio < 1/2 then
    1 + (1/2 - effectiveRatio) / (2/5) * (1/5)
  else
    1

/-- The auto-scale value after the final clamp
`autoScale = Math.max(1.0, Math.min(2.5, autoScale))` of the source. -/
def autoScale (effectiveRatio : ℚ) : ℚ :=
  max 1 (min (5/2) (autoScaleRaw effectiveRatio))

/-- The function `normalizeCoordinates(bounds, recordingWidth, recordingHeight,
videoWidth, videoHeight)` of `effectProcessor.js`. The last two parameters are
accepted (as in the source signature) and, as in the source body, never read. -/
def normalizeCoordinates (bounds : Bounds) (recordingWidth recordingHeight : ℚ)
    (videoWidth videoHeight : ℚ) : NormalizedBounds :=
  let centerX := bounds.x + bounds.width / 2
  let centerY := bounds.y + bounds.height / 2
  let anchorX := centerX / recordingWidth
  let anchorY := centerY / recordingHeight
  let boundingBoxArea := bounds.width * bounds.height
  let screenArea := recordingWidth * recordingHeight
  let areaRatio := boundingBoxArea / screenArea
  let widthRatio := bounds.width / recordingWidth
  let heightRatio := bounds.height / recordingHeight
  let dominantRatio := max widthRatio heightRatio
  let effectiveRatio := max areaRatio dominantRatio
  let scale := autoScale effectiveRatio
  { x := bounds.x, y := bounds.y, width := bounds.width, height := bounds.height,
    centerX := centerX, centerY := centerY,
    anchorX := anchorX, anchorY := anchorY,
    autoScale := scale, startScale := 1, endScale := scale,
    areaRatio := areaRatio, widthRatio := widthRatio, heightRatio := heightRatio,
    dominantRatio := dominantRatio, effectiveRatio := effectiveRatio }

/-- The cubic ease-in-out of `effectProcessor.js`:
`t < 0.5 ? 4*t*t*t : 1 - Math.pow(-2*t+2, 3)/2`. -/
def easeInOutCubic (t : ℚ) : ℚ :=
  if t < 1/2 then 4 * t * t * t else 1 - (-2 * t + 2) ^ 3 / 2

/-- The function `computeEffectProgress(currentTime, start, end, easeInPercent,
easeOutPercent)` of `effectProcessor.js`. The default arguments of the source
(0.25 each) are passed explicitly at every call site modelled here.

JavaScript caveat, made explicit because ℚ has no IEEE special values: when
`duration = end - start` is zero, the source's division
`t = (currentTime - start) / duration` yields `NaN` when `currentTime = start`
(0/0) and `±Infinity` otherwise. Every IEEE comparison against `NaN` is false,
so for `NaN` the source falls through all four comparisons and returns 1 (the
hold branch); `+Infinity >= 1` and `-Infinity <= 0` return 0 at the boundary
checks. The `duration = 0` case below states exactly those outcomes. -/
def computeEffectProgress (currentTime start end_ easeInPercent easeOutPercent : ℚ) : ℚ :=
  let duration := end_ - start
  if duration = 0 then
    (if currentTime = start then 1 else 0)
  else
    let t := (currentTime - start) / duration
    if t ≤ 0 then 0
    else if 1 ≤ t then 0
    else
      let easeInEnd := easeInPercent
      let easeOutStart := 1 - easeOutPercent
      if t < easeInEnd then easeInOutCubic (t / easeInEnd)
      else if easeOutStart < t then easeInOutCubic ((1 - t) / easeOutPercent)
      else 1

/-- The transform record `{scale, translateX, translateY}` returned by
`calculateZoomTransform`. -/
structure Transform where
  scale : ℚ
  translateX : ℚ
  translateY : ℚ
deriving DecidableEq, Repr

/-- The function `calculateZoomTransform(progress, centerX, centerY, targetScale)`
of `effectProcessor.js`. -/
def calculateZoomTransform (progress centerX centerY targetScale : ℚ) : Transform :=
  let scale := 1 + (targetScale - 1) * progress
  let translateX := -centerX * (scale - 1)
  let translateY := -centerY * (scale - 1)
  { scale := scale, translateX := translateX, translateY := translateY }

/-- An effect as consumed by `getActiveEffects` / `resolveZoomEffect`: a time
window `{start, end}` in seconds. The JS property `end` is a Lean keyword and is
named `end_`; `id` stands for the identity of the rest of the JS object
(target, style, normalized bounds), which these two functions never read. -/
structure Effect where
  id : ℕ
  start : ℚ
  end_ : ℚ
deriving DecidableEq, Repr

/-- The function `getActiveEffects(effects, currentTime)` of `effectProcessor.js`:
keeps effects with `currentTime >= effect.start && currentTime <= effect.end`. -/
def getActiveEffects (effects : List Effect) (currentTime : ℚ) : List Effect :=
  effects.filter fun e => decide (currentTime ≥ e.start) && decide (currentTime ≤ e.end_)

/-- The reducer `(latest, e) => e.start > latest.start ? e : latest` used by
`resolveZoomEffect`. -/
def pickLatest (latest e : Effect) : Effect :=
  if e.start > latest.start then e else latest

/-- The function `resolveZoomEffect(effects)` of `effectProcessor.js`: `null` on
an empty list, otherwise `effects.reduce(pickLatest)` — a left fold whose
accumulator starts at the first element. -/
def resolveZoomEffect (effects : List Effect) : Option Effect :=
  match effects with
  | [] => none
  | first :: rest => some (rest.foldl pickLatest first)

end Explaino

namespace Explaino

/-- C7: the transform synthesized by `calculateZoomTransform` interpolates the
scale linearly from 1, translates by `-center*(scale-1)` on each axis, keeps the
anchor point fixed (`center*scale + translate = center`), and is the identity
transform at progress 0. -/
theorem calculateZoomTransform_spec (p cx cy s : ℚ) :
    (calculateZoomTransform p cx cy s).scale = 1 + (s - 1) * p ∧
    (calculateZoomTransform p cx cy s).translateX =
      -cx * ((calculateZoomTransform p cx cy s).scale - 1) ∧
    (calculateZoomTransform p cx cy s).translateY =
      -cy * ((calculateZoomTransform p cx cy s).scale - 1) ∧
    cx * (calculateZoomTransform p cx cy s).scale +
      (calculateZoomTransform p cx cy s).translateX = cx ∧
    cy * (calculateZoomTransform p cx cy s).scale +
      (calculateZoomTransform p cx cy s).translateY = cy ∧
    calculateZoomTransform 0 cx cy s = ⟨1, 0, 0⟩ := by
  refine ⟨rfl, rfl, rfl, ?_, ?_, ?_⟩
  · simp only [calculateZoomTransform]; ring
  · simp only [calculateZoomTransform]; ring
  · simp only [calculateZoomTransform, Transform.mk.injEq]
    refine ⟨by ring, by ring, by ring⟩

/-- C8: on the concrete box `{x:640, y:320, width:240, height:48}` in a
1920×1080 frame, `normalizeCoordinates` computes `widthRatio = 1/8`,
`dominantRatio = 1/8`, `effectiveRatio = 1/8` (with `areaRatio = 1/180` and
`heightRatio = 2/45`), which lands in the `[0.1, 0.5)` tier, so
`autoScale = 1 + (1/2 - 1/8)/(2/5)*(1/5) = 1.1875 = 19/16`. -/
theorem normalizeCoordinates_scenarioA :
    (normalizeCoordinates ⟨640, 320, 240, 48⟩ 1920 1080 1920 1080).widthRatio = 1/8 ∧
    (normalizeCoordinates ⟨640, 320, 240, 48⟩ 1920 1080 1920 1080).dominantRatio = 1/8 ∧
    (normalizeCoordinates ⟨640, 320, 240, 48⟩ 1920 1080 1920 1080).effectiveRatio = 1/8 ∧
    (normalizeCoordinates ⟨640, 320, 240, 48⟩ 1920 1080 1920 1080).areaRatio = 1/180 ∧
    (normalizeCoordinates ⟨640, 320, 240, 48⟩ 1920 1080 1920 1080).heightRatio = 2/45 ∧
    (1/10 : ℚ) ≤ (normalizeCoordinates ⟨640, 320, 240, 48⟩ 1920 1080 1920 1080).effectiveRatio ∧
    (normalizeCoordinates ⟨640, 320, 240, 48⟩ 1920 1080 1920 1080).effectiveRatio < 1/2 ∧
    (normalizeCoordinates ⟨640, 320, 240, 48⟩ 1920 1080 1920 1080).autoScale =
      1 + (1/2 - 1/8) / (2/5) * (1/5) ∧
    (normalizeCoordinates ⟨640, 320, 240, 48⟩ 1920 1080 1920 1080).autoScale = 19/16 := by
  norm_num [normalizeCoordinates, autoScale, autoScaleRaw, max_def, min_def]

/-- C10: `normalizeCoordinates` never reads its `videoWidth` / `videoHeight`
parameters — its output is determined by the bounds and the recording
dimensions alone. -/
theorem normalizeCoordinates_ignores_videoDims (bounds : Bounds)
    (recordingWidth recordingHeight vw1 vh1 vw2 vh2 : ℚ) :
    normalizeCoordinates bounds recordingWidth recordingHeight vw1 vh1 =
      normalizeCoordinates bounds recordingWidth recordingHeight vw2 vh2 := rfl

/-- C6: for a bounding box satisfying the validity invariant inside a frame with
positive dimensions, the anchor produced by `normalizeCoordinates` equals the
box center divided by the frame dimensions and lies in the unit square. -/
theorem normalizeCoordinates_anchor_unit (bounds : Bounds) (fw fh vw vh : ℚ)
    (hx : 0 ≤ bounds.x) (hy : 0 ≤ bounds.y)
    (hw : 0 < bounds.width) (hh : 0 < bounds.height)
    (hxw : bounds.x + bounds.width ≤ fw) (hyh : bounds.y + bounds.height ≤ fh)
    (hfw : 0 < fw) (hfh : 0 < fh) :
    (normalizeCoordinates bounds fw fh vw vh).anchorX = (bounds.x + bounds.width / 2) / fw ∧
    (normalizeCoordinates bounds fw fh vw vh).anchorY = (bounds.y + bounds.height / 2) / fh ∧
    0 ≤ (normalizeCoordinates bounds fw fh vw vh).anchorX ∧
    (normalizeCoordinates bounds fw fh vw vh).anchorX ≤ 1 ∧
    0 ≤ (normalizeCoordinates bounds fw fh vw vh).anchorY ∧
    (normalizeCoordinates bounds fw fh vw vh).anchorY ≤ 1 := by
  refine ⟨rfl, rfl, ?_, ?_, ?_, ?_⟩
  · exact div_nonneg (by linarith) hfw.le
  · exact (div_le_one hfw).mpr (by linarith)
  · exact div_nonneg (by linarith) hfh.le
  · exact (div_le_one hfh).mpr (by linarith)

/-- Witness for C6 at the concrete Scenario A box and frame. -/
theorem normalizeCoordinates_anchor_unit_witness :
    (normalizeCoordinates ⟨640, 320, 240, 48⟩ 1920 1080 1920 1080).anchorX =
      (640 + 240 / 2) / 1920 ∧
    (normalizeCoordinates ⟨640, 320, 240, 48⟩ 1920 1080 1920 1080).anchorY =
      (320 + 48 / 2) / 1080 ∧
    0 ≤ (normalizeCoordinates ⟨640, 320, 240, 48⟩ 1920 1080 1920 1080).anchorX ∧
    (normalizeCoordinates ⟨640, 320, 240, 48⟩ 1920 1080 1920 1080).anchorX ≤ 1 ∧
    0 ≤ (normalizeCoordinates ⟨640, 320, 240, 48⟩ 1920 1080 1920 1080).anchorY ∧
    (normalizeCoordinates ⟨640, 320, 240, 48⟩ 1920 1080 1920 1080).anchorY ≤ 1 :=
  normalizeCoordinates_anchor_unit ⟨640, 320, 240, 48⟩ 1920 1080 1920 1080
    (by norm_num) (by norm_num) (by norm_num) (by norm_num)
    (by norm_num) (by norm_num) (by norm_num) (by norm_num)

/-- The unclamped tiers are monotonically non-increasing in the effective ratio. -/
lemma autoScaleRaw_anti {r1 r2 : ℚ} (h : r1 ≤ r2) : autoScaleRaw r2 ≤ autoScaleRaw r1 := by
  unfold autoScaleRaw
  split_ifs <;> linarith

/-- For a positive effective ratio the unclamped tier value already lies in the
clamp interval `[1, 5/2]`. -/
lemma autoScaleRaw_bounds {r : ℚ} (h : 0 < r) :
    1 ≤ autoScaleRaw r ∧ autoScaleRaw r ≤ 5/2 := by
  unfold autoScaleRaw
  split_ifs <;> constructor <;> linarith

/-- For a positive effective ratio the clamp is a no-op. -/
lemma autoScale_eq_raw {r : ℚ} (h : 0 < r) : autoScale r = autoScaleRaw r := by
  have hb := autoScaleRaw_bounds h
  unfold autoScale
  rw [min_eq_right hb.2, max_eq_right hb.1]

/-- C3: `autoScale` is monotonically non-increasing in the effective ratio,
always lies in `[1, 5/2]`, and on positive ratios is computed by the four
piecewise-linear tiers (the clamp being a no-op there). -/
theorem autoScale_antitone_range (r1 r2 : ℚ) (h0 : 0 < r1) (h12 : r1 ≤ r2) :
    autoScale r2 ≤ autoScale r1 ∧
    (r1 ≤ 1 → 1 ≤ autoScale r1 ∧ autoScale r1 ≤ 5/2) ∧
    (r1 < 1/100 → autoScale r1 = 3/2 + (1/100 - r1) / (1/100) * (1/2)) ∧
    (1/100 ≤ r1 → r1 < 1/10 → autoScale r1 = 6/5 + (1/10 - r1) / (9/100) * (3/10)) ∧
    (1/10 ≤ r1 → r1 < 1/2 → autoScale r1 = 1 + (1/2 - r1) / (2/5) * (1/5)) ∧
    (1/2 ≤ r1 → autoScale r1 = 1) := by
  refine ⟨max_le_max le_rfl (min_le_min le_rfl (autoScaleRaw_anti h12)),
    fun _ => ⟨le_max_left _ _, max_le (by norm_num) (min_le_left _ _)⟩, ?_, ?_, ?_, ?_⟩
  · intro hlt
    rw [autoScale_eq_raw h0]
    simp only [autoScaleRaw, if_pos hlt]
  · intro hge hlt
    rw [autoScale_eq_raw h0]
    simp only [autoScaleRaw, if_neg (not_lt.mpr hge), if_pos hlt]
  · intro hge hlt
    rw [autoScale_eq_raw h0]
    simp only [autoScaleRaw, if_neg (not_lt.mpr (by linarith : (1:ℚ)/100 ≤ r1)),
      if_neg (not_lt.mpr hge), if_pos hlt]
  · intro hge
    rw [autoScale_eq_raw h0]
    simp only [autoScaleRaw, if_neg (not_lt.mpr (by linarith : (1:ℚ)/100 ≤ r1)),
      if_neg (not_lt.mpr (by linarith : (1:ℚ)/10 ≤ r1)),
      if_neg (not_lt.mpr hge)]

/-- Witness for C3 at the concrete ratios 1/8 ≤ 1/4. -/
theorem autoScale_antitone_range_witness :
    (0 : ℚ) < 1/8 ∧ (1/8 : ℚ) ≤ 1/4 ∧ autoScale (1/4) ≤ autoScale (1/8) :=
  ⟨by norm_num, by norm_num,
    (autoScale_antitone_range (1/8) (1/4) (by norm_num) (by norm_num)).1⟩

/-- The piecewise progress law exactly as the specification states it (§4.3),
with the default ease fractions 0.25, written from the spec's words for the
refinement comparison with `computeEffectProgress`. -/
def progressSpecPiecewise (t start end_ : ℚ) : ℚ :=
  let u := (t - start) / (end_ - start)
  if u ≤ 0 ∨ 1 ≤ u then 0
  else if u < 1/4 then easeInOutCubic (u / (1/4))
  else if 3/4 < u then easeInOutCubic ((1 - u) / (1/4))
  else 1

/-- The cubic ease maps the unit interval into the unit interval. -/
lemma easeInOutCubic_mem {x : ℚ} (h0 : 0 ≤ x) (h1 : x ≤ 1) :
    0 ≤ easeInOutCubic x ∧ easeInOutCubic x ≤ 1 := by
  unfold easeInOutCubic
  split_ifs with h
  · have k1 : 0 ≤ x * x * x := mul_nonneg (mul_nonneg h0 h0) h0
    have k2 : 0 ≤ x * x * (1/2 - x) := mul_nonneg (mul_nonneg h0 h0) (by linarith)
    have k3 : 0 ≤ x * (1/2 - x) := mul_nonneg h0 (by linarith)
    constructor <;> nlinarith
  · have hy0 : (0:ℚ) ≤ -2*x + 2 := by linarith
    have hy1 : -2*x + 2 ≤ 1 := by linarith
    have a1 : 0 ≤ (-2*x+2) * (-2*x+2) * (1 - (-2*x+2)) :=
      mul_nonneg (mul_nonneg hy0 hy0) (by linarith)
    have a2 : 0 ≤ (-2*x+2) * (1 - (-2*x+2)) := mul_nonneg hy0 (by linarith)
    have hy3 : (-2*x + 2)^3 ≤ 1 := by nlinarith
    have hy3' : 0 ≤ (-2*x + 2)^3 := by positivity
    constructor <;> linarith

/-- The spec-side progress law always returns a value in `[0, 1]`. -/
lemma progressSpecPiecewise_mem (t s e : ℚ) :
    0 ≤ progressSpecPiecewise t s e ∧ progressSpecPiecewise t s e ≤ 1 := by
  simp only [progressSpecPiecewise]
  split_ifs with h1 h2 h3
  · norm_num
  · push_neg at h1
    exact easeInOutCubic_mem (div_nonneg h1.1.le (by norm_num))
      ((div_le_one (by norm_num)).mpr (by linarith))
  · push_neg at h1
    exact easeInOutCubic_mem (div_nonneg (by linarith) (by norm_num))
      ((div_le_one (by norm_num)).mpr (by linarith))
  · norm_num

/-- The code's progress function agrees with the spec's piecewise law on every
positive-duration window. -/
lemma computeEffectProgress_eq_spec {t s e : ℚ} (h : s < e) :
    computeEffectProgress t s e (1/4) (1/4) = progressSpecPiecewise t s e := by
  have hd : e - s ≠ 0 := sub_ne_zero.mpr (ne_of_gt h)
  simp only [computeEffectProgress, progressSpecPiecewise]
  rw [if_neg hd]
  have h34 : (1 : ℚ) - 1/4 = 3/4 := by norm_num
  rw [h34]
  split_ifs <;> first | rfl | tauto

/-- C5: on every window with `end > start` and the default ease fractions 0.25,
`computeEffectProgress` equals the spec's piecewise law, is 0 exactly at
`t = start` and `t = end`, always lies in `[0, 1]`, and the ease-in/hold and
hold/ease-out boundary values of the cubic ease are both 1. -/
theorem computeEffectProgress_piecewise (t s e : ℚ) (h : s < e) :
    computeEffectProgress t s e (1/4) (1/4) = progressSpecPiecewise t s e ∧
    computeEffectProgress s s e (1/4) (1/4) = 0 ∧
    computeEffectProgress e s e (1/4) (1/4) = 0 ∧
    0 ≤ computeEffectProgress t s e (1/4) (1/4) ∧
    computeEffectProgress t s e (1/4) (1/4) ≤ 1 ∧
    easeInOutCubic ((1/4) / (1/4)) = 1 ∧
    easeInOutCubic ((1 - 3/4) / (1/4)) = 1 := by
  have hd : e - s ≠ 0 := sub_ne_zero.mpr (ne_of_gt h)
  refine ⟨computeEffectProgress_eq_spec h, ?_, ?_, ?_, ?_, ?_, ?_⟩
  · rw [computeEffectProgress_eq_spec h]
    unfold progressSpecPiecewise
    rw [sub_self, zero_div]
    norm_num
  · rw [computeEffectProgress_eq_spec h]
    unfold progressSpecPiecewise
    rw [div_self hd]
    norm_num
  · rw [computeEffectProgress_eq_spec h]
    exact (progressSpecPiecewise_mem t s e).1
  · rw [computeEffectProgress_eq_spec h]
    exact (progressSpecPiecewise_mem t s e).2
  · norm_num [easeInOutCubic]
  · norm_num [easeInOutCubic]

/-- Witness for C5 on the window `[0, 2]` at `t = 1`. -/
theorem computeEffectProgress_piecewise_witness :
    (0:ℚ) < 2 ∧ computeEffectProgress 1 0 2 (1/4) (1/4) = progressSpecPiecewise 1 0 2 :=
  ⟨by norm_num, (computeEffectProgress_piecewise 1 0 2 (by norm_num)).1⟩

/-- The reducer of `resolveZoomEffect` returns one of its two arguments. -/
lemma pickLatest_cases (a b : Effect) : pickLatest a b = a ∨ pickLatest a b = b := by
  unfold pickLatest
  split_ifs <;> simp

/-- The reducer never decreases the accumulator's start. -/
lemma pickLatest_start_left (a b : Effect) : a.start ≤ (pickLatest a b).start := by
  unfold pickLatest
  split_ifs with h
  · exact le_of_lt h
  · exact le_rfl

/-- The reducer's result starts no earlier than its second argument. -/
lemma pickLatest_start_right (a b : Effect) : b.start ≤ (pickLatest a b).start := by
  unfold pickLatest
  split_ifs with h
  · exact le_rfl
  · exact not_lt.mp h

/-- The fold of the reducer stays inside the accumulator-plus-list. -/
lemma foldl_pickLatest_mem (a : Effect) (l : List Effect) :
    l.foldl pickLatest a ∈ a :: l := by
  induction l generalizing a with
  | nil => simp
  | cons x xs ih =>
    simp only [List.foldl_cons]
    have hmem := ih (pickLatest a x)
    rcases List.mem_cons.mp hmem with h' | h'
    · rcases pickLatest_cases a x with hc | hc
      · exact List.mem_cons.mpr (Or.inl (h'.trans hc))
      · exact List.mem_cons.mpr (Or.inr (List.mem_cons.mpr (Or.inl (h'.trans hc))))
    · exact List.mem_cons.mpr (Or.inr (List.mem_cons.mpr (Or.inr h')))

/-- The fold of the reducer dominates every start in the accumulator-plus-list. -/
lemma foldl_pickLatest_start_ge (a : Effect) (l : List Effect) :
    ∀ e ∈ a :: l, e.start ≤ (l.foldl pickLatest a).start := by
  induction l generalizing a with
  | nil =>
    intro e he
    rw [List.mem_singleton.mp he]
    exact le_rfl
  | cons x xs ih =>
    intro e he
    simp only [List.foldl_cons]
    rcases List.mem_cons.mp he with h | h
    · rw [h]
      exact le_trans (pickLatest_start_left a x)
        (ih (pickLatest a x) _ (List.mem_cons_self _ _))
    · rcases List.mem_cons.mp h with h' | h'
      · rw [h']
        exact le_trans (pickLatest_start_right a x)
          (ih (pickLatest a x) _ (List.mem_cons_self _ _))
      · exact ih (pickLatest a x) e (List.mem_cons.mpr (Or.inr h'))

/-- When no list element starts strictly later than the accumulator, the fold
keeps the accumulator (the strict comparison keeps the earlier element on ties). -/
lemma foldl_pickLatest_fixed (a : Effect) :
    ∀ l : List Effect, (∀ x ∈ l, x.start ≤ a.start) → l.foldl pickLatest a = a := by
  intro l
  induction l with
  | nil => intro _; rfl
  | cons x xs ih =>
    intro h
    simp only [List.foldl_cons]
    have hx : pickLatest a x = a := by
      unfold pickLatest
      rw [if_neg (not_lt.mpr (h x (List.mem_cons_self x xs)))]
    rw [hx]
    exact ih fun y hy => h y (List.mem_cons.mpr (Or.inr hy))

/-- The fold lands on the first element that strictly dominates everything
before it and weakly dominates everything after it. -/
lemma foldl_pickLatest_first_max (e : Effect) :
    ∀ (t l2 : List Effect) (a : Effect), a.start < e.start →
      (∀ x ∈ t, x.start < e.start) → (∀ x ∈ l2, x.start ≤ e.start) →
      (t ++ e :: l2).foldl pickLatest a = e := by
  intro t
  induction t with
  | nil =>
    intro l2 a ha _ hl2
    simp only [List.nil_append, List.foldl_cons]
    have hae : pickLatest a e = e := by
      unfold pickLatest
      rw [if_pos ha]
    rw [hae]
    exact foldl_pickLatest_fixed e l2 hl2
  | cons x xs ih =>
    intro l2 a ha ht hl2
    simp only [List.cons_append, List.foldl_cons]
    have hx : (pickLatest a x).start < e.start := by
      rcases pickLatest_cases a x with h | h <;> rw [h]
      · exact ha
      · exact ht x (List.mem_cons_self x xs)
    exact ih l2 (pickLatest a x) hx
      (fun y hy => ht y (List.mem_cons.mpr (Or.inr hy))) hl2

/-- C4: `getActiveEffects` keeps exactly the effects whose window contains the
current time, inclusive on both ends; `resolveZoomEffect` of the empty list is
`none`; and on any non-empty list with pairwise-distinct starts it returns the
unique effect of maximum start. -/
theorem activeEffects_resolve_spec (effects : List Effect) (t : ℚ) (l : List Effect)
    (hne : l ≠ []) (hdist : ∀ a ∈ l, ∀ b ∈ l, a ≠ b → a.start ≠ b.start) :
    (∀ e : Effect, e ∈ getActiveEffects effects t ↔
      e ∈ effects ∧ e.start ≤ t ∧ t ≤ e.end_) ∧
    resolveZoomEffect ([] : List Effect) = none ∧
    ∃ m, resolveZoomEffect l = some m ∧ m ∈ l ∧
      (∀ e ∈ l, e.start ≤ m.start) ∧ (∀ e ∈ l, e ≠ m → e.start < m.start) := by
  refine ⟨?_, rfl, ?_⟩
  · intro e
    simp only [getActiveEffects, List.mem_filter, Bool.and_eq_true, decide_eq_true_eq,
      ge_iff_le]
  · obtain ⟨first, rest, rfl⟩ := List.exists_cons_of_ne_nil hne
    refine ⟨rest.foldl pickLatest first, rfl, foldl_pickLatest_mem first rest,
      foldl_pickLatest_start_ge first rest, ?_⟩
    intro e he hne'
    rcases lt_or_eq_of_le (foldl_pickLatest_start_ge first rest e he) with h | h
    · exact h
    · exact absurd h (hdist e he _ (foldl_pickLatest_mem first rest) hne')

/-- Witness for C4 on a two-effect list with distinct starts. -/
theorem activeEffects_resolve_spec_witness :
    ([⟨0, 1, 5⟩, ⟨1, 3, 6⟩] : List Effect) ≠ [] ∧
    ∃ m, resolveZoomEffect [⟨0, 1, 5⟩, ⟨1, 3, 6⟩] = some m ∧
      m ∈ ([⟨0, 1, 5⟩, ⟨1, 3, 6⟩] : List Effect) ∧
      (∀ e ∈ ([⟨0, 1, 5⟩, ⟨1, 3, 6⟩] : List Effect), e.start ≤ m.start) ∧
      (∀ e ∈ ([⟨0, 1, 5⟩, ⟨1, 3, 6⟩] : List Effect), e ≠ m → e.start < m.start) :=
  ⟨by simp,
    (activeEffects_resolve_spec [⟨0, 1, 5⟩, ⟨1, 3, 6⟩] 2 [⟨0, 1, 5⟩, ⟨1, 3, 6⟩]
      (by simp)
      (by
        intro a ha b hb hab
        fin_cases ha <;> fin_cases hb <;> simp_all)).2.2⟩

/-- C9: the overlap tie-break is deterministic in list order — the reduce of
`resolveZoomEffect` returns the first effect in input order among those whose
start is maximal, because only a strictly later start replaces the accumulator. -/
theorem resolveZoomEffect_first_max (l1 l2 : List Effect) (e : Effect)
    (hbefore : ∀ x ∈ l1, x.start < e.start) (hafter : ∀ x ∈ l2, x.start ≤ e.start) :
    resolveZoomEffect (l1 ++ e :: l2) = some e := by
  cases l1 with
  | nil =>
    simp only [List.nil_append, resolveZoomEffect]
    rw [foldl_pickLatest_fixed e l2 hafter]
  | cons h1 t1 =>
    simp only [List.cons_append, resolveZoomEffect]
    rw [foldl_pickLatest_first_max e t1 l2 h1
      (hbefore h1 (List.mem_cons_self _ _))
      (fun y hy => hbefore y (List.mem_cons.mpr (Or.inr hy))) hafter]

/-- Witness for C9: the middle effect starts at 3, ties with the last one, and
wins by appearing first. -/
theorem resolveZoomEffect_first_max_witness :
    resolveZoomEffect [⟨0, 1, 10⟩, ⟨1, 3, 10⟩, ⟨2, 3, 10⟩] = some ⟨1, 3, 10⟩ :=
  resolveZoomEffect_first_max [⟨0, 1, 10⟩] [⟨2, 3, 10⟩] ⟨1, 3, 10⟩
    (by intro x hx; fin_cases hx; norm_num)
    (by intro x hx; fin_cases hx; norm_num)

/-- C2 counterexample: a zero-duration window `start = end = 5` is kept by
`getActiveEffects` at `t = 5`, and `computeEffectProgress` returns 1 there (the
JavaScript `0/0 = NaN` falls through every comparison into the hold branch), so
the effect is applied at full target scale — it is neither detected as an error
nor skipped. -/
theorem zeroDurationWindow_applied_not_skipped :
    getActiveEffects [⟨0, 5, 5⟩] 5 = [⟨0, 5, 5⟩] ∧
    computeEffectProgress 5 5 5 (1/4) (1/4) = 1 ∧
    calculateZoomTransform (computeEffectProgress 5 5 5 (1/4) (1/4)) 100 50 2 =
      ⟨2, -100, -50⟩ := by
  refine ⟨?_, ?_, ?_⟩
  · simp [getActiveEffects]
  · simp [computeEffectProgress]
  · simp only [computeEffectProgress, calculateZoomTransform, sub_self]
    norm_num

/-- C2 amended: negative-duration windows are never active (the selector skips
them), but `computeEffectProgress` itself performs no duration check — on a
zero-duration window evaluated at its start it returns the hold value 1. -/
theorem nonpositiveDuration_amended (effects : List Effect) (t : ℚ) (e : Effect)
    (hneg : e.end_ < e.start) :
    e ∉ getActiveEffects effects t ∧
    (∀ s easeIn easeOut : ℚ, computeEffectProgress s s s easeIn easeOut = 1) := by
  constructor
  · intro hmem
    have hc := (List.mem_filter.mp hmem).2
    simp only [Bool.and_eq_true, decide_eq_true_eq, ge_iff_le] at hc
    linarith [hc.1, hc.2]
  · intro s easeIn easeOut
    simp [computeEffectProgress]

/-- Witness for C2's amended statement on the window `[5, 3]` at `t = 4`. -/
theorem nonpositiveDuration_amended_witness :
    ((⟨0, 5, 3⟩ : Effect).end_ < (⟨0, 5, 3⟩ : Effect).start) ∧
    ((⟨0, 5, 3⟩ : Effect) ∉ getActiveEffects [⟨0, 5, 3⟩] 4 ∧
      ∀ s easeIn easeOut : ℚ, computeEffectProgress s s s easeIn easeOut = 1) :=
  ⟨by norm_num, nonpositiveDuration_amended [⟨0, 5, 3⟩] 4 ⟨0, 5, 3⟩ (by norm_num)⟩

/-- A frame `{width, height}` — the video resolution the boxes were captured in. -/
structure Frame where
  width : ℚ
  height : ℚ
deriving DecidableEq, Repr

/-- A display effect as read by the instruction generator: the time window plus
the optional recorded box (`effect.target?.bounds`) and the zoom style
(`effect.style?.zoom?.enabled` / `.scale`), flattened from the nested JS shape. -/
structure DisplayEffect where
  start : ℚ
  end_ : ℚ
  bounds : Option Bounds
  zoomEnabled : Bool
  zoomScale : ℚ
deriving DecidableEq, Repr

/-- A JSON-like value, enough to model an exported instruction object as the
list of its keyed fields (so that the purity check can inspect key sets). -/
inductive JVal where
  | num : ℚ → JVal
  | str : String → JVal
  | obj : List (String × JVal) → JVal

/-- Modelled from the spec: `generateZoomInstructions` lives in
`src/utils/instructionGenerator.js`, which is not among the provided sources —
only its caller `VideoEffectPreview.jsx` is. Per §4.6 it filters to effects
with a bounding box and zoom enabled and emits, per effect, only
`effect:"zoom"`, `startTimeMs = start*1000`, `durationMs = (end-start)*1000`,
`frame`, and `boundingBox` (the original, unmodified box). -/
def generateZoomInstructions (displayEffects : List DisplayEffect) (frame : Frame) :
    List (List (String × JVal)) :=
  (displayEffects.filter fun e => e.bounds.isSome && e.zoomEnabled).map fun e =>
    let box := e.bounds.getD ⟨0, 0, 0, 0⟩
    [("effect", JVal.str "zoom"),
     ("startTimeMs", JVal.num (e.start * 1000)),
     ("durationMs", JVal.num ((e.end_ - e.start) * 1000)),
     ("frame", JVal.obj [("width", JVal.num frame.width),
        ("height", JVal.num frame.height)]),
     ("boundingBox", JVal.obj [("x", JVal.num box.x), ("y", JVal.num box.y),
        ("width", JVal.num box.width), ("height", JVal.num box.height)])]

/-- The fixed allowed top-level key set of a pure instruction (§4.6). -/
def allowedTopLevelKeys : List String :=
  ["effect", "startTimeMs", "durationMs", "frame", "boundingBox"]

/-- The allowed nested keys of `frame`. -/
def allowedFrameKeys : List String := ["width", "height"]

/-- The allowed nested keys of `boundingBox`. -/
def allowedBoundingBoxKeys : List String := ["x", "y", "width", "height"]

/-- The result `{clean, violations}` of the purity check. -/
structure PurityResult where
  clean : Bool
  violations : List String
deriving Repr

/-- Modelled from the spec: the key scan of `checkInstructionPurity` from the
missing `src/utils/instructionGenerator.js`. Per §4.6 it rejects the presence
of any key outside the fixed allowed set `{effect, startTimeMs, durationMs,
frame, boundingBox}` and of any nested key within `frame` / `boundingBox`
outside their allowed sets, collecting the offending key names. -/
def purityViolations (instruction : List (String × JVal)) : List String :=
  instruction.foldr
    (fun kv acc =>
      if !(allowedTopLevelKeys.contains kv.1) then kv.1 :: acc
      else
        match kv with
        | ("frame", JVal.obj fields) =>
          ((fields.filter fun f => !(allowedFrameKeys.contains f.1)).map
            fun f => "frame." ++ f.1) ++ acc
        | ("boundingBox", JVal.obj fields) =>
          ((fields.filter fun f => !(allowedBoundingBoxKeys.contains f.1)).map
            fun f => "boundingBox." ++ f.1) ++ acc
        | _ => acc)
    []

/-- Modelled from the spec: `checkInstructionPurity(instruction)` returns
`{clean, violations}` with `clean` true exactly when no disallowed key is
present (§4.6). -/
def checkInstructionPurity (instruction : List (String × JVal)) : PurityResult :=
  let v := purityViolations instruction
  { clean := v.isEmpty, violations := v }

/-- C1: every instruction emitted by `generateZoomInstructions` passes the
purity check — its keys are exactly `{effect, startTimeMs, durationMs, frame,
boundingBox}` with only the allowed nested keys, so `clean` is true and no
scale, anchor, easing or ratio field is present. -/
theorem generateZoomInstructions_pure (displayEffects : List DisplayEffect)
    (frame : Frame) (instruction : List (String × JVal))
    (hmem : instruction ∈ generateZoomInstructions displayEffects frame) :
    (checkInstructionPurity instruction).clean = true ∧
    instruction.map Prod.fst = allowedTopLevelKeys := by
  simp only [generateZoomInstructions, List.mem_map] at hmem
  obtain ⟨e, _, rfl⟩ := hmem
  exact ⟨rfl, rfl⟩

/-- Witness for C1 on a one-effect timeline with the Scenario A box, at the
concrete instruction that timeline generates. -/
theorem generateZoomInstructions_pure_witness :
    (checkInstructionPurity
      [("effect", JVal.str "zoom"),
       ("startTimeMs", JVal.num (2 * 1000)),
       ("durationMs", JVal.num ((4 - 2) * 1000)),
       ("frame", JVal.obj [("width", JVal.num 1920), ("height", JVal.num 1080)]),
       ("boundingBox", JVal.obj [("x", JVal.num 640), ("y", JVal.num 320),
          ("width", JVal.num 240), ("height", JVal.num 48)])]).clean = true ∧
    ([("effect", JVal.str "zoom"),
      ("startTimeMs", JVal.num ((2:ℚ) * 1000)),
      ("durationMs", JVal.num ((4 - 2) * 1000)),
      ("frame", JVal.obj [("width", JVal.num 1920), ("height", JVal.num 1080)]),
      ("boundingBox", JVal.obj [("x", JVal.num 640), ("y", JVal.num 320),
         ("width", JVal.num 240), ("height", JVal.num 48)])].map Prod.fst) =
      allowedTopLevelKeys :=
  generateZoomInstructions_pure [⟨2, 4, some ⟨640, 320, 240, 48⟩, true, 1⟩]
    ⟨1920, 1080⟩ _ (List.Mem.head _)

end Explaino
